import Mathlib

/-!
Verification development for the rio-vectortiles raster-to-vector-tile
pipeline.

The Python sources (rio_vectortiles/__init__.py and
rio_vectortiles/scripts/cli.py) are shallowly embedded below.  Pixel
coordinates are integer pairs, raster sample grids are lists of lists of
rationals (floating-point samples modelled exactly on the inputs used),
machine integer casts carry their wraparound explicitly, and the external
primitives the code drives (the vtzero tile encoder, gzip, the worker pool)
are modelled at the interface the specification gives them; every such
model carries a doc comment saying so.
-/

namespace RioVectortiles

/-- A pixel coordinate pair as passed to feature.set_point. -/
abbrev Pt := Int × Int

/-- A ring exactly as shapely exposes it to the loop in
read_transform_tile: the coordinate list of geom.exterior.coords or
part.coords, which includes the repeated closing point (first == last). -/
abbrev Ring := List Pt

/-- One simple polygon of the repaired geometry: an exterior ring and its
interior rings (holes). -/
structure SimplePoly where
  exterior : Ring
  interiors : List Ring
deriving DecidableEq

/-- Rings of a simple polygon in the emission order of
rio_vectortiles/__init__.py lines 110-116: the exterior ring first, then
each interior ring. -/
def polyRings (p : SimplePoly) : List Ring :=
  p.exterior :: p.interiors

/-- One call to the external vtzero polygon-feature builder:
feature.add_ring(n) or feature.set_point(x, y). -/
inductive Ev where
  | addRing (n : Nat)
  | setPoint (p : Pt)
deriving DecidableEq

/-- Emission of one ring, rio_vectortiles/__init__.py lines 110-112 (and
identically 114-116 for holes): feature.add_ring(len(coords)) followed by
one set_point call for every coordinate of the ring, the closing duplicate
included (shapely coordinate lists carry it). -/
def emitRing (r : Ring) : List Ev :=
  Ev.addRing r.length :: r.map Ev.setPoint

/-- Emission of one simple polygon, rio_vectortiles/__init__.py lines
109-116: the exterior ring, then each interior ring. -/
def emitPoly (g : SimplePoly) : List Ev :=
  emitRing g.exterior ++ g.interiors.flatMap emitRing

/-- State of the builder-call checker: the completed rings, and inside a
ring the number of points still owed to the last ring-start marker together
with the points received so far. -/
structure EvState where
  rings : List Ring
  cur : Option (Nat × List Pt)
deriving DecidableEq

/-- One step of the builder-call check: a ring-start marker is accepted
only at the start of the stream or when the previous marker's announced
point count has been exhausted exactly, and every point is counted against
the pending marker. -/
def evStep (s : EvState) (e : Ev) : Option EvState :=
  match s.cur, e with
  | none, Ev.addRing n => some ⟨s.rings, some (n, [])⟩
  | some (0, acc), Ev.addRing n => some ⟨s.rings ++ [acc], some (n, [])⟩
  | some (k + 1, acc), Ev.setPoint p => some ⟨s.rings, some (k, acc ++ [p])⟩
  | _, _ => none

/-- Flush the checker state at the end of the stream: the last marker must
have received exactly its announced number of points. -/
def evFinish : EvState → Option (List Ring)
  | ⟨rs, none⟩ => some rs
  | ⟨rs, some (0, acc)⟩ => some (rs ++ [acc])
  | _ => none

/-- Run the builder-call checker over a stream from a given state. -/
def evRun (s : EvState) : List Ev → Option EvState
  | [] => some s
  | e :: es =>
    match evStep s e with
    | none => none
    | some s2 => evRun s2 es

/-- Check a builder call stream: succeeds with the rings in emission order
iff every ring-start marker is followed by exactly the announced number of
set_point calls. -/
def parseEvents (evs : List Ev) : Option (List Ring) :=
  (evRun ⟨[], none⟩ evs).bind evFinish

/-- One token of the serialized binary tile geometry, modelled from the
spec: a feature record start with the feature id, a ring-start marker
carrying the point count, point commands, and the implicit-closure
command. -/
inductive Tok where
  | featStart (id : Int)
  | ringStart (n : Nat)
  | point (p : Pt)
  | closeRing
deriving DecidableEq

/-- Modelled from the spec: how the external vtzero encoder writes one ring
it received through add_ring and set_point into the serialized tile.  The
ring-start marker carries the point count without the closing duplicate,
the points follow without the closing duplicate, and closure is implicit
(a close command, never a point). -/
def writeRing (r : Ring) : List Tok :=
  Tok.ringStart r.dropLast.length :: r.dropLast.map Tok.point ++ [Tok.closeRing]

/-- Modelled from the spec: the external vtzero encoder accepts a ring only
when the announced count matches the number of set_point calls, the count
is at least 4 (three distinct points plus the closing duplicate) and the
ring is closed; otherwise it raises, which the source does not catch. -/
def vtzeroRing (n : Nat) (ps : List Pt) : Option (List Tok) :=
  if ps.length = n ∧ 4 ≤ n ∧ ps.head? = ps.getLast? then some (writeRing ps) else none

/-- A committed vector-tile feature: the identifier passed to set_id and
the rings handed to the builder, in order. -/
structure Feature where
  id : Int
  rings : List Ring
deriving DecidableEq

/-- Result of the buffer(0) repair as read_transform_tile inspects it,
rio_vectortiles/__init__.py lines 105-108: either a single polygon or a
multi-polygon. -/
inductive Repaired where
  | poly (p : SimplePoly)
  | multi (ps : List SimplePoly)
deriving DecidableEq

/-- The iter_polys selection of rio_vectortiles/__init__.py lines 105-108:
the one polygon, or the parts of the multi-polygon. -/
def iterPolys : Repaired → List SimplePoly
  | Repaired.poly p => [p]
  | Repaired.multi ps => ps

/-- The builder calls issued for one quantized-value group,
rio_vectortiles/__init__.py lines 109-116: each simple polygon of the
repaired geometry is emitted, in order, into the one feature created for
the group. -/
def emitFeature (R : Repaired) : List Ev :=
  (iterPolys R).flatMap emitPoly

/-- The feature loop of rio_vectortiles/__init__.py lines 99-118: for each
quantized-value group exactly one Polygon feature is created, its id is set
to the group's value, and the rings of every simple polygon of the group's
repaired geometry are added to that single feature before commit. -/
def encodeGroups (groups : List (Int × Repaired)) : List Feature :=
  groups.map fun g => { id := g.1, rings := (iterPolys g.2).flatMap polyRings }

/-- Modelled from the spec: serialization of the tile object
(vtile.serialize() at rio_vectortiles/__init__.py line 122), one feature
record per committed feature holding its id and its rings written with
implicit closure. -/
def serializeTile (fs : List Feature) : List Tok :=
  fs.flatMap fun f => Tok.featStart f.id :: f.rings.flatMap writeRing

/-- Modelled from the spec: a gzip member, at the interface level a
losslessly wrapped copy of the payload together with its length. -/
structure GzBytes where
  isize : Nat
  payload : List Tok
deriving DecidableEq

/-- The gzip.open(...).write of rio_vectortiles/__init__.py lines 120-122,
with gzip modelled from the spec as a lossless wrapper. -/
def gzipCompress (b : List Tok) : GzBytes :=
  ⟨b.length, b⟩

/-- decompress_tile, rio_vectortiles/__init__.py lines 21-25: open the
byte buffer as a gzip member and read the decompressed payload back. -/
def decompress_tile (g : GzBytes) : List Tok :=
  g.payload

/-- A tile address as mercantile hands it to the pipeline. -/
structure TileXYZ where
  x : Nat
  y : Nat
  z : Nat
deriving DecidableEq

/-- The encoder tail of read_transform_tile, rio_vectortiles/__init__.py
lines 99-124: the features built from the grouped repaired geometry are
serialized, gzip-compressed and returned together with the passed-through
tile. -/
def read_transform_tile (groups : List (Int × Repaired)) (tile : TileXYZ) :
    GzBytes × TileXYZ :=
  (gzipCompress (serializeTile (encodeGroups groups)), tile)

/-- State of the tile decoder: completed features, the id and rings of the
feature being read, and inside a ring the number of points still expected
with the points already read. -/
structure DecState where
  done : List Feature
  curId : Option Int
  curRings : List Ring
  curRing : Option (Nat × List Pt)
deriving DecidableEq

/-- Close the feature currently being read, if any. -/
def decFlush (s : DecState) : List Feature :=
  match s.curId with
  | none => s.done
  | some i => s.done ++ [⟨i, s.curRings⟩]

/-- One step of the tile decoder over a serialized token.  A completed ring
is re-closed by appending a copy of its first point, undoing the implicit
closure of the format. -/
def decodeStep (s : DecState) (t : Tok) : Option DecState :=
  match t, s.curRing with
  | Tok.featStart i, none => some ⟨decFlush s, some i, [], none⟩
  | Tok.ringStart n, none =>
    match s.curId with
    | some _ => some ⟨s.done, s.curId, s.curRings, some (n, [])⟩
    | none => none
  | Tok.point p, some (k + 1, acc) => some ⟨s.done, s.curId, s.curRings, some (k, acc ++ [p])⟩
  | Tok.closeRing, some (0, acc) =>
    some ⟨s.done, s.curId, s.curRings ++ [acc ++ acc.take 1], none⟩
  | _, _ => none

/-- Run the tile decoder over a token stream from a given state. -/
def decodeRun (s : DecState) : List Tok → Option DecState
  | [] => some s
  | t :: ts =>
    match decodeStep s t with
    | none => none
    | some s2 => decodeRun s2 ts

/-- Decode a serialized tile back into its features; fails on any stream
that does not follow the feature/ring/point grammar. -/
def decodeTile (ts : List Tok) : Option (List Feature) :=
  (decodeRun ⟨[], none, [], none⟩ ts).map decFlush

/-- A raster sample grid, row-major; floating-point samples are modelled as
rationals (exact on the inputs considered). -/
abbrev Grid := List (List ℚ)

/-- The filter fold of rio_vectortiles/__init__.py lines 88-89: each
configured smoothing filter applied in sequence. -/
def applyFilters (filters : List (Grid → Grid)) (g : Grid) : Grid :=
  filters.foldl (fun d f => f d) g

/-- The bucketing expression data // interval * interval of
rio_vectortiles/__init__.py line 90: Python floor division, then
multiplication by the interval. -/
def bucket (interval : ℚ) (x : ℚ) : ℚ :=
  ⌊x / interval⌋ * interval

/-- Truncation toward zero, the C cast numpy applies elementwise. -/
def truncQ (x : ℚ) : Int :=
  if 0 ≤ x then ⌊x⌋ else ⌈x⌉

/-- The astype(np.int32) of rio_vectortiles/__init__.py line 90: truncation
toward zero followed by 32-bit two's-complement wraparound. -/
def toInt32 (t : Int) : Int :=
  (t + 2 ^ 31) % 2 ^ 32 - 2 ^ 31

/-- One cell of the quantization step of rio_vectortiles/__init__.py line
90: bucket to the interval, then cast to int32. -/
def quantizeCell (interval : ℚ) (x : ℚ) : ℚ :=
  ((toInt32 (truncQ (bucket interval x)) : Int) : ℚ)

/-- The whole quantization line data = (data // interval *
interval).astype(np.int32) applied to the grid. -/
def quantizeStep (interval : ℚ) (g : Grid) : Grid :=
  g.map (List.map (quantizeCell interval))

/-- The extent function of rio_vectortiles/scripts/cli.py lines 29-31:
max([int(max_extent / 2 ** (maxz - z)), min_extent]).  The int() of the
exact float quotient is its floor, i.e. natural division. -/
def extent_func (z maxz min_extent max_extent : Nat) : Nat :=
  max (max_extent / 2 ^ (maxz - z)) min_extent

/-- The flipped-row key of rio_vectortiles/scripts/cli.py line 205 (and
line 45): tiley = int(2**z) - y - 1. -/
def flipRow (z y : Nat) : Nat :=
  2 ^ z - y - 1

/-- The projected-CRS circumference constant C of
rio_vectortiles/scripts/cli.py line 25. -/
noncomputable def earthCircumference : ℝ :=
  40075016.686

/-- get_maxzoom of rio_vectortiles/scripts/cli.py lines 21-26:
res = min((e - w) / cols, (n - s) / rows) and
int(np.round(np.log(C / res) / log2 - np.log(extent) / log2)).  Floats are
modelled as reals; np.round rounds to the nearest integer (its half-even
tie-break never fires on the values considered here). -/
noncomputable def get_maxzoom (w s e n : ℝ) (rows cols : Nat) (extent : ℝ) : ℤ :=
  round (Real.log (earthCircumference / min ((e - w) / (cols : ℝ)) ((n - s) / (rows : ℝ))) / Real.log 2
    - Real.log extent / Real.log 2)

/-- A failure of the geometry union/repair step escaping a worker as an
exception. -/
inductive GeomError where
  | repairFailed
deriving DecidableEq

/-- The result-consumption loop of rio_vectortiles/scripts/cli.py lines
202-213 with the multiprocessing pool: each produced tile is inserted with
key (z, x, flipRow z y); an exception raised while producing any tile
result propagates out of the loop, so no further tile is written. -/
def runTiling (f : TileXYZ → Except GeomError GzBytes) :
    List TileXYZ → Except GeomError (List (Nat × Nat × Nat × GzBytes))
  | [] => Except.ok []
  | t :: ts =>
    match f t with
    | Except.error e => Except.error e
    | Except.ok b => (runTiling f ts).map (fun rows => (t.z, t.x, flipRow t.z t.y, b) :: rows)

/-- A worker whose geometry repair raises on one specific tile and
succeeds on every other. -/
def repairCrashOn (bad : TileXYZ) (t : TileXYZ) : Except GeomError GzBytes :=
  if t = bad then Except.error GeomError.repairFailed else Except.ok (gzipCompress [])

/-- One vector layer of the json metadata document. -/
structure VectorLayer where
  id : String
  minzoom : ℤ
  maxzoom : ℤ
  fields : List (String × String)
deriving DecidableEq

/-- The json metadata value of rio_vectortiles/scripts/cli.py lines
173-190: a single vector layer named raster, minzoom written as the
literal 0, maxzoom the computed maxzoom, and an empty fields map. -/
def metadataLayers (maxzoom : ℤ) : List VectorLayer :=
  [{ id := "raster", minzoom := 0, maxzoom := maxzoom, fields := [] }]

/-- One row insert issued by the vectortiles job. -/
inductive DbOp where
  | insertMeta (name value : String)
  | insertMetaJson (layers : List VectorLayer)
  | insertTile (zoom_level tile_column tile_row : Nat)
deriving DecidableEq

/-- Recognize the json metadata insert. -/
def isJsonMeta : DbOp → Bool
  | DbOp.insertMetaJson _ => true
  | _ => false

/-- Recognize a tile row insert. -/
def isTileInsert : DbOp → Bool
  | DbOp.insertTile _ _ _ => true
  | _ => false

/-- The ordered sequence of row inserts issued by the vectortiles command,
rio_vectortiles/scripts/cli.py lines 146-213: the four text metadata rows,
then the json metadata row, then one tile row per produced tile keyed with
the flipped row.  The minzoom job parameter is carried to show that it does
not flow into the metadata (the source writes the literal 0 at line 182);
it only bounds the tile enumeration upstream. -/
def jobOps (input_raster : String) (minzoom maxzoom : ℤ) (tiles : List TileXYZ) : List DbOp :=
  [DbOp.insertMeta "name" "rio-vectortiles",
   DbOp.insertMeta "type" "pbf",
   DbOp.insertMeta "version" "1.1",
   DbOp.insertMeta "description" input_raster,
   DbOp.insertMetaJson (metadataLayers maxzoom)]
  ++ tiles.map fun t => DbOp.insertTile t.z t.x (flipRow t.z t.y)

/-! Lemmas about the builder-call checker. -/

lemma evRun_append (s : EvState) (xs ys : List Ev) :
    evRun s (xs ++ ys) = (evRun s xs).bind fun s2 => evRun s2 ys := by
  induction xs generalizing s with
  | nil => simp [evRun]
  | cons e es ih =>
    cases h : evStep s e with
    | none => simp [evRun, h]
    | some s2 => simp [evRun, h, ih]

lemma evRun_points (ps : List Pt) (k : Nat) (acc : List Pt) (rs : List Ring) :
    evRun ⟨rs, some (ps.length + k, acc)⟩ (ps.map Ev.setPoint)
      = some ⟨rs, some (k, acc ++ ps)⟩ := by
  induction ps generalizing acc with
  | nil => simp [evRun]
  | cons p ps ih =>
    have hl : (p :: ps).length + k = ps.length + k + 1 := by
      simp [List.length_cons]; omega
    rw [hl, List.map_cons]
    have hstep : evRun ⟨rs, some (ps.length + k + 1, acc)⟩
        (Ev.setPoint p :: ps.map Ev.setPoint)
        = evRun ⟨rs, some (ps.length + k, acc ++ [p])⟩ (ps.map Ev.setPoint) := rfl
    rw [hstep, ih (acc ++ [p])]
    simp

lemma evRun_emitRing_start (r : Ring) (rs : List Ring) :
    evRun ⟨rs, none⟩ (emitRing r) = some ⟨rs, some (0, r)⟩ := by
  have h := evRun_points r 0 [] rs
  simpa [emitRing, evRun, evStep] using h

lemma evRun_emitRing_next (r : Ring) (rs : List Ring) (acc : List Pt) :
    evRun ⟨rs, some (0, acc)⟩ (emitRing r) = some ⟨rs ++ [acc], some (0, r)⟩ := by
  have h := evRun_points r 0 [] (rs ++ [acc])
  simpa [emitRing, evRun, evStep] using h

lemma evRun_flatMap (rl : List Ring) (rs : List Ring) (acc : List Pt) :
    (evRun ⟨rs, some (0, acc)⟩ (rl.flatMap emitRing)).bind evFinish
      = some (rs ++ acc :: rl) := by
  induction rl generalizing rs acc with
  | nil => simp [evRun, evFinish]
  | cons r rl ih =>
    rw [List.flatMap_cons, evRun_append, evRun_emitRing_next, Option.some_bind]
    rw [ih (rs ++ [acc]) r]
    simp

/-- The builder-call checker recovers exactly the emitted rings: every
ring-start marker in the emitted stream is followed by exactly its
announced number of points. -/
lemma parseEvents_flatMap (rl : List Ring) :
    parseEvents (rl.flatMap emitRing) = some rl := by
  cases rl with
  | nil => simp [parseEvents, evRun, evFinish]
  | cons r rl =>
    unfold parseEvents
    rw [List.flatMap_cons, evRun_append, evRun_emitRing_start, Option.some_bind]
    rw [evRun_flatMap rl [] r]
    simp

lemma emitPoly_eq (g : SimplePoly) :
    emitPoly g = (polyRings g).flatMap emitRing := by
  simp [emitPoly, polyRings, List.flatMap_cons]

lemma emitFeature_eq (R : Repaired) :
    emitFeature R = ((iterPolys R).flatMap polyRings).flatMap emitRing := by
  unfold emitFeature
  rw [List.flatMap_assoc]
  have hfn : emitPoly = fun g => (polyRings g).flatMap emitRing := funext emitPoly_eq
  rw [hfn]

/-- Two disjoint unit squares, as two simple polygons of one repaired
multi-polygon. -/
def unitSquareAt (dx : Int) : SimplePoly :=
  ⟨[(dx, 0), (dx + 1, 0), (dx + 1, 1), (dx, 1), (dx, 0)], []⟩

/-- C1 counterexample: a quantized-value group (value 7) whose repaired
multi-polygon splits into two simple polygons yields a single feature, not
the two features the claim predicts for k = 2. -/
theorem C1_counterexample :
    (encodeGroups [(7, Repaired.multi [unitSquareAt 0, unitSquareAt 5])]).length ≠ 2 := by
  decide

/-- C1 (amended): the encoder constructs one feature per quantized-value
group (not per simple polygon); that feature's identifier is the group's
quantized value, and its builder-call stream carries exactly the rings of
every simple polygon of the repaired geometry, in order. -/
theorem C1_theorem (groups : List (Int × Repaired)) :
    (encodeGroups groups).length = groups.length ∧
    (encodeGroups groups).map Feature.id = groups.map Prod.fst ∧
    ∀ R : Repaired,
      parseEvents (emitFeature R) = some ((iterPolys R).flatMap polyRings) := by
  refine ⟨by simp [encodeGroups], by simp [encodeGroups], fun R => ?_⟩
  rw [emitFeature_eq, parseEvents_flatMap]

/-- C2: each ring of an emitted polygon (exterior first, then each hole)
is passed to the encoder as a ring-start marker carrying the ring's point
count followed by exactly that many points, and the encoder writes the
ring with its closing point dropped — closure is implicit (a close command,
never a point). -/
theorem C2_theorem (g : SimplePoly)
    (h : ∀ r ∈ polyRings g, 4 ≤ r.length ∧ r.head? = r.getLast?) :
    emitPoly g
        = (polyRings g).flatMap (fun r => Ev.addRing r.length :: r.map Ev.setPoint) ∧
    parseEvents (emitPoly g) = some (polyRings g) ∧
    ∀ r ∈ polyRings g,
      vtzeroRing r.length r
          = some (Tok.ringStart (r.length - 1) ::
              r.dropLast.map Tok.point ++ [Tok.closeRing]) ∧
      (r.dropLast.map Tok.point).length = r.length - 1 := by
  refine ⟨emitPoly_eq g, by rw [emitPoly_eq, parseEvents_flatMap], fun r hr => ?_⟩
  obtain ⟨h4, hcl⟩ := h r hr
  constructor
  · unfold vtzeroRing
    rw [if_pos ⟨rfl, h4, hcl⟩]
    unfold writeRing
    rw [List.length_dropLast]
  · simp [List.length_dropLast]

/-- A 10 by 10 square with one square hole, rings closed shapely-style. -/
def squareWithHole : SimplePoly :=
  ⟨[(0, 0), (10, 0), (10, 10), (0, 10), (0, 0)],
   [[(2, 2), (2, 4), (4, 4), (4, 2), (2, 2)]]⟩

/-- Witness for C2 at a concrete polygon with a hole. -/
theorem C2_witness :
    (∀ r ∈ polyRings squareWithHole, 4 ≤ r.length ∧ r.head? = r.getLast?) ∧
    parseEvents (emitPoly squareWithHole) = some (polyRings squareWithHole) :=
  ⟨by decide, (C2_theorem squareWithHole (by decide)).2.1⟩

/-- A degenerate two-point ring as a repaired polygon. -/
def degeneratePoly : SimplePoly :=
  ⟨[(0, 0), (1, 1)], []⟩

/-- C7 is right about the format requirement but the source has no
ring-length check: a degenerate 2-point ring is emitted to the encoder
(add_ring(2) followed by both points) instead of being dropped, and the
encoder primitive rejects the call. -/
theorem C7_theorem :
    Ev.addRing 2 ∈ emitPoly degeneratePoly ∧
    emitPoly degeneratePoly
        = [Ev.addRing 2, Ev.setPoint (0, 0), Ev.setPoint (1, 1)] ∧
    vtzeroRing 2 [(0, 0), (1, 1)] = none := by
  decide

/-! Lemmas about the tile decoder. -/

lemma decodeRun_append (s : DecState) (xs ys : List Tok) :
    decodeRun s (xs ++ ys) = (decodeRun s xs).bind fun s2 => decodeRun s2 ys := by
  induction xs generalizing s with
  | nil => simp [decodeRun]
  | cons t ts ih =>
    cases h : decodeStep s t with
    | none => simp [decodeRun, h]
    | some s2 => simp [decodeRun, h, ih]

lemma decodeRun_points (ps : List Pt) (k : Nat) (acc : List Pt) (d : List Feature)
    (ci : Option Int) (rl : List Ring) :
    decodeRun ⟨d, ci, rl, some (ps.length + k, acc)⟩ (ps.map Tok.point)
      = some ⟨d, ci, rl, some (k, acc ++ ps)⟩ := by
  induction ps generalizing acc with
  | nil => simp [decodeRun]
  | cons p ps ih =>
    have hl : (p :: ps).length + k = ps.length + k + 1 := by
      simp [List.length_cons]; omega
    rw [hl, List.map_cons]
    have hstep : decodeRun ⟨d, ci, rl, some (ps.length + k + 1, acc)⟩
        (Tok.point p :: ps.map Tok.point)
        = decodeRun ⟨d, ci, rl, some (ps.length + k, acc ++ [p])⟩ (ps.map Tok.point) := rfl
    rw [hstep, ih (acc ++ [p])]
    simp

/-- Re-closing a decoded ring recovers the original closed ring. -/
lemma closedRing_recon (r : Ring) (h2 : 2 ≤ r.length) (hc : r.head? = r.getLast?) :
    r.dropLast ++ r.dropLast.take 1 = r := by
  cases r with
  | nil => simp at h2
  | cons a r1 =>
    cases r1 with
    | nil => simp at h2
    | cons b t =>
      have hne : (a :: b :: t) ≠ [] := by simp
      have hlast : (a :: b :: t).getLast hne = a := by
        have hg := List.getLast?_eq_getLast (a :: b :: t) hne
        rw [hg] at hc
        simpa using hc.symm
      have hd : (a :: b :: t).dropLast = a :: (b :: t).dropLast := rfl
      have h3 := List.dropLast_append_getLast hne
      rw [hlast] at h3
      calc (a :: b :: t).dropLast ++ (a :: b :: t).dropLast.take 1
          = (a :: b :: t).dropLast ++ [a] := by rw [hd]; rfl
        _ = a :: b :: t := h3

lemma decodeRun_writeRing (r : Ring) (h2 : 2 ≤ r.length) (hc : r.head? = r.getLast?)
    (d : List Feature) (i : Int) (rl : List Ring) :
    decodeRun ⟨d, some i, rl, none⟩ (writeRing r) = some ⟨d, some i, rl ++ [r], none⟩ := by
  unfold writeRing
  rw [List.cons_append]
  have hstep : decodeRun ⟨d, some i, rl, none⟩
      (Tok.ringStart r.dropLast.length :: (r.dropLast.map Tok.point ++ [Tok.closeRing]))
      = decodeRun ⟨d, some i, rl, some (r.dropLast.length, [])⟩
          (r.dropLast.map Tok.point ++ [Tok.closeRing]) := rfl
  rw [hstep, decodeRun_append]
  have hp := decodeRun_points r.dropLast 0 [] d (some i) rl
  rw [Nat.add_zero] at hp
  rw [hp, Option.some_bind]
  have hclose : decodeRun ⟨d, some i, rl, some (0, [] ++ r.dropLast)⟩ [Tok.closeRing]
      = some ⟨d, some i, rl ++ [([] ++ r.dropLast) ++ ([] ++ r.dropLast).take 1], none⟩ := rfl
  rw [hclose]
  rw [List.nil_append, closedRing_recon r h2 hc]

lemma decodeRun_rings (rs : List Ring)
    (h : ∀ r ∈ rs, 2 ≤ r.length ∧ r.head? = r.getLast?)
    (d : List Feature) (i : Int) (rl : List Ring) :
    decodeRun ⟨d, some i, rl, none⟩ (rs.flatMap writeRing)
      = some ⟨d, some i, rl ++ rs, none⟩ := by
  induction rs generalizing rl with
  | nil => simp [decodeRun]
  | cons r rs ih =>
    rw [List.flatMap_cons, decodeRun_append,
      decodeRun_writeRing r (h r (by simp)).1 (h r (by simp)).2, Option.some_bind]
    rw [ih (fun q hq => h q (by simp [hq])) (rl ++ [r])]
    simp

lemma decodeRun_serialize (fs : List Feature)
    (h : ∀ f ∈ fs, ∀ r ∈ f.rings, 2 ≤ r.length ∧ r.head? = r.getLast?)
    (d : List Feature) (ci : Option Int) (rl : List Ring) :
    (decodeRun ⟨d, ci, rl, none⟩ (serializeTile fs)).map decFlush
      = some (decFlush ⟨d, ci, rl, none⟩ ++ fs) := by
  induction fs generalizing d ci rl with
  | nil => simp [serializeTile, decodeRun]
  | cons f fs ih =>
    unfold serializeTile
    rw [List.flatMap_cons, List.cons_append]
    have hstep : decodeRun ⟨d, ci, rl, none⟩
        (Tok.featStart f.id :: (f.rings.flatMap writeRing ++ List.flatMap fs
          (fun f2 => Tok.featStart f2.id :: f2.rings.flatMap writeRing)))
        = decodeRun ⟨decFlush ⟨d, ci, rl, none⟩, some f.id, [], none⟩
            (f.rings.flatMap writeRing ++ List.flatMap fs
              (fun f2 => Tok.featStart f2.id :: f2.rings.flatMap writeRing)) := rfl
    rw [hstep, decodeRun_append]
    rw [decodeRun_rings f.rings (h f (by simp)) _ f.id []]
    rw [Option.some_bind, List.nil_append]
    have hfs := ih (fun f2 hf2 => h f2 (by simp [hf2]))
      (decFlush ⟨d, ci, rl, none⟩) (some f.id) f.rings
    unfold serializeTile at hfs
    rw [hfs]
    simp [decFlush]

/-- C10: the compression stage is a lossless round trip — decompress_tile
recovers exactly the serialized tile bytes that read_transform_tile
compressed, the tile object passes through unchanged, and decoding the
serialized tile recovers every feature with its rings (closure re-expanded). -/
theorem C10_theorem (groups : List (Int × Repaired)) (tile : TileXYZ)
    (h : ∀ f ∈ encodeGroups groups, ∀ r ∈ f.rings,
      2 ≤ r.length ∧ r.head? = r.getLast?) :
    decompress_tile (read_transform_tile groups tile).1
        = serializeTile (encodeGroups groups) ∧
    (read_transform_tile groups tile).2 = tile ∧
    decodeTile (serializeTile (encodeGroups groups)) = some (encodeGroups groups) := by
  refine ⟨rfl, rfl, ?_⟩
  have hrun := decodeRun_serialize (encodeGroups groups) h [] none []
  unfold decodeTile
  rw [hrun]
  simp [decFlush]

/-- Witness for C10 at a concrete group: value 5, one polygon with a hole. -/
theorem C10_witness :
    (∀ f ∈ encodeGroups [((5 : Int), Repaired.poly squareWithHole)], ∀ r ∈ f.rings,
      2 ≤ r.length ∧ r.head? = r.getLast?) ∧
    decodeTile (serializeTile (encodeGroups [((5 : Int), Repaired.poly squareWithHole)]))
      = some (encodeGroups [((5 : Int), Repaired.poly squareWithHole)]) :=
  ⟨by decide,
   (C10_theorem [((5 : Int), Repaired.poly squareWithHole)] ⟨0, 0, 0⟩ (by decide)).2.2⟩

/-! Lemmas about the quantization step. -/

lemma toInt32_eq_self (t : Int) (h1 : -(2 ^ 31) ≤ t) (h2 : t < 2 ^ 31) :
    toInt32 t = t := by
  unfold toInt32
  have e31 : (2 : ℤ) ^ 31 = 2147483648 := by norm_num
  have e32 : (2 : ℤ) ^ 32 = 4294967296 := by norm_num
  rw [e31] at h1 h2
  rw [e31, e32]
  rw [Int.emod_eq_of_lt (by omega) (by omega)]
  omega

lemma truncQ_intCast (m : ℤ) : truncQ (m : ℚ) = m := by
  unfold truncQ
  split
  · exact Int.floor_intCast m
  · exact Int.ceil_intCast m

lemma bucket_intCast_mul (i : ℤ) (hi : i ≠ 0) (k : ℤ) :
    bucket (i : ℚ) ((k * i : ℤ) : ℚ) = ((k * i : ℤ) : ℚ) := by
  unfold bucket
  have hiq : ((i : ℚ)) ≠ 0 := Int.cast_ne_zero.mpr hi
  have hdiv : (((k * i : ℤ) : ℚ)) / (i : ℚ) = (k : ℚ) := by
    push_cast
    exact mul_div_cancel_right₀ _ hiq
  rw [hdiv, Int.floor_intCast]
  exact (Int.cast_mul k i).symm

lemma quantizeCell_idem (i : ℤ) (hi : 1 ≤ i) (x : ℚ)
    (h1 : -(2 ^ 31) ≤ ⌊x / (i : ℚ)⌋ * i) (h2 : ⌊x / (i : ℚ)⌋ * i < 2 ^ 31) :
    quantizeCell (i : ℚ) (quantizeCell (i : ℚ) x) = quantizeCell (i : ℚ) x := by
  have hi0 : i ≠ 0 := by omega
  have e1 : quantizeCell (i : ℚ) x = ((⌊x / (i : ℚ)⌋ * i : ℤ) : ℚ) := by
    unfold quantizeCell bucket
    have hb : (⌊x / (i : ℚ)⌋ : ℚ) * (i : ℚ) = ((⌊x / (i : ℚ)⌋ * i : ℤ) : ℚ) := by
      push_cast
      ring
    rw [hb, truncQ_intCast, toInt32_eq_self _ h1 h2]
  rw [e1]
  unfold quantizeCell
  rw [bucket_intCast_mul i hi0 ⌊x / (i : ℚ)⌋, truncQ_intCast, toInt32_eq_self _ h1 h2]

/-- C4 counterexample: with the configured fractional interval 5/2 the
quantization step of the source (bucket, then astype(np.int32)) is not
idempotent — the one-cell grid holding 3 buckets to 2 and re-buckets to 0. -/
theorem C4_counterexample :
    quantizeStep (5 / 2) (quantizeStep (5 / 2) [[(3 : ℚ)]])
      ≠ quantizeStep (5 / 2) [[(3 : ℚ)]] := by
  have hf1 : ⌊(3 : ℚ) / (5 / 2)⌋ = 1 := by norm_num
  have c1 : quantizeCell (5 / 2) 3 = 2 := by
    unfold quantizeCell bucket truncQ toInt32
    rw [hf1]
    norm_num
  have hf2 : ⌊(2 : ℚ) / (5 / 2)⌋ = 0 := by norm_num
  have c2 : quantizeCell (5 / 2) 2 = 0 := by
    unfold quantizeCell bucket truncQ toInt32
    rw [hf2]
    norm_num
  have g1 : quantizeStep (5 / 2) [[(3 : ℚ)]] = [[(2 : ℚ)]] := by
    simp [quantizeStep, c1]
  have g2 : quantizeStep (5 / 2) [[(2 : ℚ)]] = [[(0 : ℚ)]] := by
    simp [quantizeStep, c2]
  rw [g1, g2]
  norm_num

/-- C4 (amended): the quantization step is idempotent for integer intervals
at least 1, on grids whose bucketed values fit in int32 (the astype cast the
source applies); for fractional intervals the int32 cast breaks idempotence
as the counterexample shows. -/
theorem C4_theorem (i : ℤ) (hi : 1 ≤ i) (g : Grid)
    (hr : ∀ row ∈ g, ∀ x ∈ row,
      -(2 ^ 31) ≤ ⌊x / (i : ℚ)⌋ * i ∧ ⌊x / (i : ℚ)⌋ * i < 2 ^ 31) :
    quantizeStep (i : ℚ) (quantizeStep (i : ℚ) g) = quantizeStep (i : ℚ) g := by
  unfold quantizeStep
  rw [List.map_map]
  apply List.map_congr_left
  intro row hrow
  simp only [Function.comp_apply]
  rw [List.map_map]
  apply List.map_congr_left
  intro x hx
  simp only [Function.comp_apply]
  exact quantizeCell_idem i hi x (hr row hrow x hx).1 (hr row hrow x hx).2

/-- Witness for C4 at interval 2 on the one-cell grid holding 3. -/
theorem C4_witness :
    (1 ≤ (2 : ℤ)) ∧
    quantizeStep ((2 : ℤ) : ℚ) (quantizeStep ((2 : ℤ) : ℚ) [[(3 : ℚ)]])
      = quantizeStep ((2 : ℤ) : ℚ) [[(3 : ℚ)]] :=
  ⟨by norm_num,
   C4_theorem 2 (by norm_num) [[(3 : ℚ)]] (by
    intro row hrow x hx
    simp only [List.mem_singleton] at hrow
    subst hrow
    simp only [List.mem_singleton] at hx
    subst hx
    norm_num)⟩

/-- C3: for every zoom z in [0, maxZoom] the extent function returns
max(maxExtent / 2^(maxZoom - z), minExtent) (the int() of the quotient
being its floor), minExtent <= extent(z) <= maxExtent, and
extent(maxZoom) = maxExtent, all whenever maxExtent >= minExtent. -/
theorem C3_theorem (z maxz min_extent max_extent : Nat) (hz : z ≤ maxz)
    (hme : min_extent ≤ max_extent) :
    extent_func z maxz min_extent max_extent
        = max (max_extent / 2 ^ (maxz - z)) min_extent ∧
    min_extent ≤ extent_func z maxz min_extent max_extent ∧
    extent_func z maxz min_extent max_extent ≤ max_extent ∧
    extent_func maxz maxz min_extent max_extent = max_extent := by
  refine ⟨rfl, Nat.le_max_right _ _, ?_, ?_⟩
  · exact Nat.max_le.mpr ⟨Nat.div_le_self _ _, hme⟩
  · unfold extent_func
    rw [Nat.sub_self]
    simp [Nat.max_eq_left hme]

/-- Witness for C3 at z = 3, maxZoom = 5, minExtent = 256, maxExtent = 512. -/
theorem C3_witness :
    (3 ≤ 5 ∧ 256 ≤ 512) ∧
    (256 ≤ extent_func 3 5 256 512 ∧ extent_func 3 5 256 512 ≤ 512 ∧
      extent_func 5 5 256 512 = 512) :=
  ⟨⟨by decide, by decide⟩, (C3_theorem 3 5 256 512 (by decide) (by decide)).2⟩

/-- C5: the y-flip 2^z - y - 1 stays inside [0, 2^z) and is injective on
the rows of one zoom level, so no two enumerated tiles collide on the key
(zoom_level, tile_column, tile_row). -/
theorem C5_theorem (z y1 y2 : Nat) (h1 : y1 < 2 ^ z) (h2 : y2 < 2 ^ z)
    (hne : y1 ≠ y2) :
    flipRow z y1 ≠ flipRow z y2 ∧ flipRow z y1 < 2 ^ z := by
  have hp : 0 < 2 ^ z := Nat.two_pow_pos z
  unfold flipRow
  omega

/-- Witness for C5 at zoom 1 with rows 0 and 1. -/
theorem C5_witness :
    (0 < 2 ^ 1 ∧ 1 < 2 ^ 1 ∧ 0 ≠ 1) ∧
    flipRow 1 0 ≠ flipRow 1 1 ∧ flipRow 1 0 < 2 ^ 1 :=
  ⟨⟨by decide, by decide, by decide⟩, C5_theorem 1 0 1 (by decide) (by decide) (by decide)⟩

/-- Rounding on the reals is monotone. -/
lemma round_mono_real {x y : ℝ} (h : x ≤ y) : round x ≤ round y := by
  rw [round_eq, round_eq]
  exact Int.floor_mono (by linarith)

/-- C6 counterexample: with a resolution making C / res = 1024, raising
the target extent from 4 to 8 lowers the computed maxzoom from 8 to 7, so
increasing the extent does decrease the computed maxZoom. -/
theorem C6_counterexample :
    get_maxzoom 0 0 earthCircumference earthCircumference 1 1024 8
      < get_maxzoom 0 0 earthCircumference earthCircumference 1 1024 4 := by
  have hC : (0 : ℝ) < earthCircumference := by unfold earthCircumference; norm_num
  have hlog2 : (0 : ℝ) < Real.log 2 := Real.log_pos one_lt_two
  have hne2 : Real.log 2 ≠ 0 := ne_of_gt hlog2
  unfold get_maxzoom
  have hcast1 : (((1024 : Nat)) : ℝ) = 1024 := by norm_num
  have hcast2 : (((1 : Nat)) : ℝ) = 1 := by norm_num
  rw [hcast1, hcast2, sub_zero]
  have hmin : min (earthCircumference / 1024) (earthCircumference / 1)
      = earthCircumference / 1024 :=
    min_eq_left (div_le_div_of_nonneg_left hC.le (by norm_num) (by norm_num))
  rw [hmin]
  have hdiv : earthCircumference / (earthCircumference / 1024) = 1024 := by
    rw [div_div_eq_mul_div, mul_comm, mul_div_assoc, div_self (ne_of_gt hC), mul_one]
  rw [hdiv]
  have l1024 : Real.log 1024 = 10 * Real.log 2 := by
    rw [show (1024 : ℝ) = 2 ^ (10 : Nat) by norm_num, Real.log_pow]
    push_cast
    ring
  have l8 : Real.log 8 = 3 * Real.log 2 := by
    rw [show (8 : ℝ) = 2 ^ (3 : Nat) by norm_num, Real.log_pow]
    push_cast
    ring
  have l4 : Real.log 4 = 2 * Real.log 2 := by
    rw [show (4 : ℝ) = 2 ^ (2 : Nat) by norm_num, Real.log_pow]
    push_cast
    ring
  rw [l1024, l8, l4, mul_div_cancel_right₀ _ hne2, mul_div_cancel_right₀ _ hne2,
    mul_div_cancel_right₀ _ hne2]
  rw [show (10 : ℝ) - 3 = 7 by norm_num, show (10 : ℝ) - 2 = 8 by norm_num]
  rw [round_ofNat, round_ofNat]
  decide

/-- C6 (amended): the zoom planner is antitone in the target extent — for a
fixed source resolution and bounds, increasing the target pixel extent
never increases the computed maxZoom. -/
theorem C6_theorem (w s e n : ℝ) (rows cols : Nat) (e1 e2 : ℝ)
    (h1 : 0 < e1) (h12 : e1 ≤ e2) :
    get_maxzoom w s e n rows cols e2 ≤ get_maxzoom w s e n rows cols e1 := by
  unfold get_maxzoom
  apply round_mono_real
  have hlog2 : (0 : ℝ) < Real.log 2 := Real.log_pos one_lt_two
  have hl : Real.log e1 ≤ Real.log e2 := Real.log_le_log h1 h12
  have hd : Real.log e1 / Real.log 2 ≤ Real.log e2 / Real.log 2 :=
    (div_le_div_iff_of_pos_right hlog2).mpr hl
  linarith

/-- Witness for C6 at extents 4 and 8 on the counterexample resolution. -/
theorem C6_witness :
    ((0 : ℝ) < 4 ∧ (4 : ℝ) ≤ 8) ∧
    get_maxzoom 0 0 earthCircumference earthCircumference 1 1024 8
      ≤ get_maxzoom 0 0 earthCircumference earthCircumference 1 1024 4 :=
  ⟨⟨by norm_num, by norm_num⟩,
   C6_theorem 0 0 earthCircumference earthCircumference 1 1024 4 8
     (by norm_num) (by norm_num)⟩

/-- The tile whose geometry repair raises, and an unrelated tile behind it
in the work list. -/
def tileA : TileXYZ := ⟨1, 2, 3⟩

/-- A tile whose processing would succeed. -/
def tileB : TileXYZ := ⟨4, 5, 3⟩

/-- C8 is the specified contract but the source does not implement it: an
exception from the geometry repair of one tile propagates out of the
result-consumption loop and aborts the whole job, so the healthy tile
behind it is never written, even though its own worker call succeeds. -/
theorem C8_theorem :
    runTiling (repairCrashOn tileA) [tileA, tileB]
        = Except.error GeomError.repairFailed ∧
    repairCrashOn tileA tileB = Except.ok (gzipCompress []) :=
  ⟨rfl, rfl⟩

/-- C9 counterexample: a job configured with minimum zoom 3 still writes a
metadata json whose single layer has minzoom 0, not 3. -/
theorem C9_counterexample :
    (jobOps "input.tif" 3 7 [⟨0, 0, 0⟩]).filter isJsonMeta
        = [DbOp.insertMetaJson
            [{ id := "raster", minzoom := 0, maxzoom := 7, fields := [] }]] ∧
    (0 : ℤ) ≠ 3 :=
  ⟨rfl, by decide⟩

/-- C9 (amended): the job writes exactly one json metadata record, before
any tile row (it sits among the first five inserts while every tile insert
comes after), and that record describes one vector layer with a fields map
and maxzoom equal to the computed maxZoom — but its minzoom is the literal
0, not the configured minimum zoom. -/
theorem C9_theorem (input_raster : String) (minzoom maxzoom : ℤ)
    (tiles : List TileXYZ) :
    (jobOps input_raster minzoom maxzoom tiles).filter isJsonMeta
        = [DbOp.insertMetaJson (metadataLayers maxzoom)] ∧
    (jobOps input_raster minzoom maxzoom tiles).take 5
        = [DbOp.insertMeta "name" "rio-vectortiles",
           DbOp.insertMeta "type" "pbf",
           DbOp.insertMeta "version" "1.1",
           DbOp.insertMeta "description" input_raster,
           DbOp.insertMetaJson (metadataLayers maxzoom)] ∧
    (jobOps input_raster minzoom maxzoom tiles).drop 5
        = tiles.map (fun t => DbOp.insertTile t.z t.x (flipRow t.z t.y)) ∧
    metadataLayers maxzoom
        = [{ id := "raster", minzoom := 0, maxzoom := maxzoom, fields := [] }] := by
  refine ⟨?_, ?_, ?_, rfl⟩
  · unfold jobOps
    rw [List.filter_append]
    have h5 : [DbOp.insertMeta "name" "rio-vectortiles",
        DbOp.insertMeta "type" "pbf",
        DbOp.insertMeta "version" "1.1",
        DbOp.insertMeta "description" input_raster,
        DbOp.insertMetaJson (metadataLayers maxzoom)].filter isJsonMeta
        = [DbOp.insertMetaJson (metadataLayers maxzoom)] := rfl
    rw [h5, List.filter_map]
    have hnone : List.filter (isJsonMeta ∘ fun t =>
        DbOp.insertTile t.z t.x (flipRow t.z t.y)) tiles = [] := by
      simp [Function.comp_def, isJsonMeta]
    rw [hnone]
    rfl
  · rfl
  · unfold jobOps
    rw [List.cons_append, List.cons_append, List.cons_append, List.cons_append,
      List.cons_append, List.nil_append]
    rw [List.drop_succ_cons, List.drop_succ_cons, List.drop_succ_cons,
      List.drop_succ_cons, List.drop_succ_cons, List.drop_zero]

end RioVectortiles
